import Mathlib

/-!
Verification development for the iolang front end and execution core:
a shallow embedding of the lexer (lex.go), the recursive-descent parser
(Parse/parseRecurse) and the block/closure evaluator (block.go), with
theorems checking the natural-language specification against it.

Conventions of the embedding:
* The character source is a `List Char`.  A `bufio.Reader` position with an
  "unread" rune is represented by returning the remaining list including
  that rune.  A string source can produce only end-of-input as a read
  error, so the read-error channel is `ReadErr` with an `eof` constructor
  and a `hard` constructor for non-EOF I/O errors; the `hard` case is
  structurally transcribed from the source but is unreachable for string
  sources.
* Go strings of ASCII bytes are modelled as `String`; `byte(r)` truncation
  agrees with the identity on the ASCII inputs considered here.
* The lexer goroutine + channel pipeline delivers tokens in strict source
  order to a single consumer (spec section 5 notes it collapses to a
  pull-based iterator with identical observable ordering), so the lexer is
  modelled as a function producing the token list, and the parser as a
  function consuming it.
* A Go `panic` (the `panic(r)` in `eatSpace`, and the nil-pointer
  dereference reachable in `parseRecurse`'s deferred pruning) terminates
  the process; it is modelled as an explicit `panicked` outcome.
-/

set_option maxRecDepth 32768

set_option maxHeartbeats 1000000

/-- Token kinds, mirroring the `tokenKind` constants of lex.go
(`badToken`, `semiToken`, `identToken`, `openToken`, `closeToken`,
`commaToken`, `numberToken`, `hexToken`, `stringToken`, `triquoteToken`). -/
inductive TokKind where
  | badToken
  | semiToken
  | identToken
  | openToken
  | closeToken
  | commaToken
  | numberToken
  | hexToken
  | stringToken
  | triquoteToken
deriving DecidableEq, Repr

/-- Read errors of the character source.  For a string-backed reader the
only possible read error is end-of-input (`eof`); `hard` transcribes the
non-EOF error channel of an `io.Reader`, which a string source never
produces. -/
inductive ReadErr where
  | eof
  | hard (msg : String)
deriving DecidableEq, Repr

/-- A lexer token, mirroring `type token struct {Kind; Value; Err}` of
lex.go.  `err` carries the error message of a bad token (for example the
unexpected-EOF error of an unterminated string). -/
structure Token where
  kind : TokKind
  value : String
  err : Option String
deriving DecidableEq, Repr

/-- Continuation of one lexer state function: either continue from
`eatSpace` on the rest of the stream (`lexsend` returning `eatSpace`),
or stop (`lexsend`/`eatSpace` returning nil). -/
inductive LexCont where
  | cont (rest : List Char)
  | halt
deriving DecidableEq, Repr

/-- Result of running the whole lexer. `panicked c` models the
`panic(r)` reached in `eatSpace` for a character with no transition
(process crash, no token stream delivered).  `outOfFuel` is an artifact of
the fuel-bounded driver and is never reached with fuel exceeding the
input length. -/
inductive LexRes where
  | ok (toks : List Token)
  | panicked (c : Char)
  | outOfFuel
deriving DecidableEq, Repr

/-- Transcription of `accept` from lex.go: append the run of characters
satisfying `p` to `b`; return `b` extended, the first character that did
not satisfy `p` (`none` when the run was ended by end-of-input), and the
remaining stream.  Exactly as in the source, when the run ends on a
non-matching character that character is unread (it stays at the head of
the returned stream); when it ends at end-of-input the stream is empty. -/
def accept (p : Char → Bool) : List Char → String → String × Option Char × List Char
  | [], b => (b, none, [])
  | c :: cs, b => if p c then accept p cs (b.push c) else (b, some c, c :: cs)

/-- Transcription of `lexsend` from lex.go: a non-nil, non-EOF read error
turns the prepared token into a bad token carrying the error; the token is
sent either way; lexing continues (with `eatSpace`) iff there was no read
error at all. -/
def lexsend (err : Option ReadErr) (good : Token) (rest : List Char) : List Token × LexCont :=
  let tok := match err with
    | some (.hard m) => { good with kind := .badToken, err := some m }
    | _ => good
  ([tok], match err with
    | none => .cont rest
    | some _ => .halt)

/-- Character class of identifier constituents (`lexIdent`'s predicate):
letters, digits, underscore, dot, and non-ASCII. -/
def isIdentChar (r : Char) : Bool :=
  ('a' ≤ r && r ≤ 'z') || ('A' ≤ r && r ≤ 'Z') || ('0' ≤ r && r ≤ '9') ||
    r = '_' || r = '.' || r.val ≥ 0x80

/-- The operator-symbol set of `eatSpace`/`lexOp`. -/
def isOpChar (r : Char) : Bool := "!$%&\x27*+-/:<=>?@\\^|~".toList.contains r

/-- Decimal digit predicate used throughout `lexNumber`. -/
def isDigit (r : Char) : Bool := '0' ≤ r && r ≤ '9'

/-- Hexadecimal digit predicate of `lexNumber`'s hex branch. -/
def isHexDigit (r : Char) : Bool :=
  ('0' ≤ r && r ≤ '9') || ('a' ≤ r && r ≤ 'f') || ('A' ≤ r && r ≤ 'F')

/-- Transcription of `lexIdent`. -/
def lexIdent (s : List Char) : List Token × LexCont :=
  match accept isIdentChar s "" with
  | (b, r, rest) =>
    lexsend (if r.isNone then some .eof else none) { kind := .identToken, value := b, err := none } rest

/-- Transcription of `lexOp`; like the source it emits an `identToken`. -/
def lexOp (s : List Char) : List Token × LexCont :=
  match accept isOpChar s "" with
  | (b, r, rest) =>
    lexsend (if r.isNone then some .eof else none) { kind := .identToken, value := b, err := none } rest

/-- Transcription of `lexNumber` from lex.go, keeping its exact control
flow and variable threading:
* the hex branch appends `x`, accepts hex digits (the `x`/`X` itself was
  left unread by `accept`, so this run stops immediately on it), emits a
  `numberToken` via a `lexsend` whose returned state is discarded (the
  source lacks a `return` here), and falls through;
* the fraction branch consumes the dot and accepts digits, returning
  early on end-of-input;
* the exponent branch re-reads the character `accept` left unread (the
  `e`/`E` itself), so its sign test compares that `e`/`E` against
  `-`/`+`; the sign arm is transcribed although it is unreachable. -/
def lexNumber (s : List Char) : List Token × LexCont :=
  match accept isDigit s "" with
  | (b, none, rest) => lexsend (some .eof) { kind := .numberToken, value := b, err := none } rest
  | (b, some r, rest) =>
    -- hex branch (kind stays numberToken; result of lexsend discarded, so
    -- the emitted token is collected and execution falls through)
    let hex := if r = 'x' || r = 'X' then
      let b := b.push 'x'
      match accept isHexDigit rest b with
      | (b, r2, rest) =>
        some (b, (if r2.isNone then some ReadErr.eof else none), rest,
              [Token.mk .numberToken b none])
    else none
    match hex with
    | some (b, err, rest, emitted) =>
      -- r is still 'x'/'X', so the fraction and exponent branches are skipped
      let (toks, c) := lexsend err { kind := .numberToken, value := b, err := none } rest
      (emitted ++ toks, c)
    | none =>
      -- fraction branch
      let frac : (String × Option Char × List Char) ⊕ (List Token × LexCont) :=
        if r = '.' then
          let b := b.push '.'
          match rest with
          | [] => .inr (lexsend (some .eof) { kind := .numberToken, value := b, err := none } [])
          | _ :: rest =>  -- the dot itself is consumed by src.ReadRune()
            match accept isDigit rest b with
            | (b, none, rest) =>
              .inr (lexsend (some .eof) { kind := .numberToken, value := b, err := none } rest)
            | (b, some r, rest) => .inl (b, some r, rest)
        else .inl (b, some r, rest)
      match frac with
      | .inr out => out
      | .inl (b, r?, rest) =>
        -- exponent branch
        if r? = some 'e' || r? = some 'E' then
          match rest with
          | [] => lexsend (some .eof) { kind := .numberToken, value := b, err := none } []
          | r1 :: rest =>  -- src.ReadRune() re-reads the unread 'e'/'E'
            if r1 = '-' || r1 = '+' then
              -- unreachable: r1 is the 'e'/'E' just unread by accept
              match rest with
              | [] =>
                let b := (b.push 'e').push (Char.ofNat 0)
                lexsend (some .eof) { kind := .numberToken, value := b, err := none } []
              | r2 :: rest =>
                let b := (b.push 'e').push r2
                match accept isDigit rest b with
                | (b, r3, rest) =>
                  lexsend (if r3.isNone then some .eof else none)
                    { kind := .numberToken, value := b, err := none } rest
            else
              let b := b.push 'e'
              match accept isDigit rest b with
              | (b, r3, rest) =>
                lexsend (if r3.isNone then some .eof else none)
                  { kind := .numberToken, value := b, err := none } rest
        else
          lexsend none { kind := .numberToken, value := b, err := none } rest

/-- Transcription of `lexMonoquote`.  Note that after an escaping
backslash is appended the source merely `continue`s, so the loop still
terminates on the very next `"` — the transcription keeps that behavior
(the backslash case and the following iteration collapse to the same
recursion). -/
def lexMonoquote : List Char → String → List Token × LexCont
  | [], b => ([{ kind := .badToken, value := b, err := some "unexpected EOF" }], .halt)
  | r :: rest, b =>
    let b := b.push r
    if r = '\\' then lexMonoquote rest b
    else if r = '"' then lexsend none { kind := .stringToken, value := b, err := none } rest
    else lexMonoquote rest b

/-- Transcription of `lexTriquote`'s scanning loop.  On a `"` it peeks two
characters; when they are `""` it emits the triquote token *without
consuming the peeked quotes* (as the source does — `Peek` does not
advance), otherwise it appends and continues. -/
def lexTriquoteLoop : List Char → String → List Token × LexCont
  | [], b => ([{ kind := .badToken, value := b, err := some "unexpected EOF" }], .halt)
  | r :: rest, b =>
    if r = '"' then
      match rest with
      | '"' :: '"' :: _ =>
        lexsend none { kind := .triquoteToken, value := b ++ "\"\"\"", err := none } rest
      | _ => lexTriquoteLoop rest (b.push r)
    else lexTriquoteLoop rest (b.push r)

/-- Transcription of `lexTriquote`: read the three opening quotes, then
scan. -/
def lexTriquote (s : List Char) : List Token × LexCont :=
  lexTriquoteLoop (s.drop 3) (String.mk (s.take 3))

/-- Transcription of `lexString`: peek three characters and route to the
triple-quote or single-quote scanner. -/
def lexString (s : List Char) : List Token × LexCont :=
  match s with
  | '"' :: '"' :: '"' :: _ => lexTriquote s
  | _ =>
    match s with
    | c :: rest => lexMonoquote rest (String.mk [c])
    | [] => lexMonoquote [] ""

/-- Outcome of one `eatSpace` step: continue lexing from `eatSpace`,
stop, or hit the `panic(r)` of the final catch-all. -/
inductive EatOut where
  | cont (rest : List Char)
  | halt
  | panicked (c : Char)
deriving DecidableEq, Repr

/-- Lift a sub-lexer result into an `eatSpace` outcome. -/
def liftSub : List Token × LexCont → List Token × EatOut
  | (toks, .cont rest) => (toks, .cont rest)
  | (toks, .halt) => (toks, .halt)

/-- First-character guard of the identifier class in `eatSpace`:
letters, underscore, or non-ASCII. -/
def isIdentStart (r : Char) : Bool :=
  ('a' ≤ r && r ≤ 'z') || ('A' ≤ r && r ≤ 'Z') || r = '_' || r.val ≥ 0x80

/-- Transcription of `eatSpace` from lex.go: skip whitespace, then
dispatch on the first significant character exactly as the source's
`switch` does; the catch-all is the source's `panic(r)`. -/
def eatSpace : List Char → List Token × EatOut
  | [] => ([], .halt)
  | r :: cs =>
    if " \r\x0c\t\x0b".toList.contains r then eatSpace cs
    else if r = ';' || r = '\n' then
      ([{ kind := .semiToken, value := String.mk [r], err := none }], .cont cs)
    else if isIdentStart r then liftSub (lexIdent (r :: cs))
    else if isOpChar r then liftSub (lexOp (r :: cs))
    else if "([\x7b".toList.contains r then
      ([{ kind := .openToken, value := String.mk [r], err := none }], .cont cs)
    else if ")]\x7d".toList.contains r then
      ([{ kind := .closeToken, value := String.mk [r], err := none }], .cont cs)
    else if r = ',' then
      ([{ kind := .commaToken, value := ",", err := none }], .cont cs)
    else if isDigit r then liftSub (lexNumber (r :: cs))
    else if r = '.' then
      -- the dot is unread and two characters are peeked: a following digit
      -- routes to the number scanner, otherwise to the identifier scanner
      match cs with
      | c2 :: _ => if isDigit c2 then liftSub (lexNumber (r :: cs)) else liftSub (lexIdent (r :: cs))
      | [] => liftSub (lexIdent (r :: cs))
    else if r = '"' then liftSub (lexString (r :: cs))
    else ([], .panicked r)

/-- The lexer driver `lex`: iterate state functions until one returns nil.
Fuel bounds the number of `eatSpace` cycles; each cycle consumes at least
one character, so `length + 1` fuel always suffices. -/
def runLex : Nat → List Char → LexRes
  | 0, _ => .outOfFuel
  | fuel + 1, s =>
    match eatSpace s with
    | (toks, .halt) => .ok toks
    | (_, .panicked c) => .panicked c
    | (toks, .cont rest) =>
      match runLex fuel rest with
      | .ok more => .ok (toks ++ more)
      | other => other

/-- Run the lexer on a whole string with sufficient fuel. -/
def runLexStr (s : String) : LexRes :=
  runLex (s.length + 1) s.toList

/-- Symbol kinds of the parser's `Symbol` (`NoSym`, `SemiSym`, `IdentSym`,
`NumSym`, `StringSym`). -/
inductive SymKind where
  | NoSym
  | SemiSym
  | IdentSym
  | NumSym
  | StringSym
deriving DecidableEq, Repr

/-- Numbers as the interpreter stores them: a `float64` that is either an
exact (small) value, modelled by an exact rational, or a signed infinity
produced by the overflow-saturation paths.  Rounding of non-representable
decimals is not modelled; every literal appearing in the theorems below is
exactly representable. -/
inductive IoNum where
  | fin (q : ℚ)
  | inf (neg : Bool)
deriving DecidableEq, Repr

/-- The parser's `Symbol`: a kind plus the decoded payloads (`Text` for
identifiers and separators, `Num` for number literals, `String` — here
`str` — for string literals). -/
structure IoSymbol where
  kind : SymKind := .NoSym
  text : String := ""
  num : IoNum := .fin 0
  str : String := ""
deriving DecidableEq, Repr

/-- Memoized literal value of a message node (`Message.Memo`).  The Go
field holds the interned runtime Number/String object; it is modelled by
the literal content of that object. -/
inductive PVal where
  | num (n : IoNum)
  | str (s : String)
deriving DecidableEq, Repr

/-- A parsed message node, the sole syntax-tree node kind.  `slotsRef` is
the reference to the `Slots` map installed on the node's embedded
`Object` (`vm.DefaultSlots["Message"]` — Go maps are references, so the
reference is the honest model).  `args` is `Message.Args`: a list of
`*Message` argument chains in which an entry can be nil (`none`), exactly
as in the source.  The `Prev`/`Next` sibling links are represented by the
position of the node in its chain (a `List Msg`). -/
inductive Msg where
  | mk (slotsRef : Nat) (sym : IoSymbol) (args : List (Option (List Msg))) (memo : Option PVal)

/-- The `Slots` map reference of a message node's embedded object. -/
def Msg.slotsRef : Msg → Nat
  | .mk r _ _ _ => r

/-- The symbol of a message node. -/
def Msg.sym : Msg → IoSymbol
  | .mk _ s _ _ => s

/-- The argument chains of a message node (`Message.Args`). -/
def Msg.args : Msg → List (Option (List Msg))
  | .mk _ _ a _ => a

/-- The memoized literal value of a message node (`Message.Memo`). -/
def Msg.memo : Msg → Option PVal
  | .mk _ _ _ m => m

/-- Decimal digit run to a natural number. -/
def digitsVal (ds : List Char) : ℕ :=
  ds.foldl (fun a c => a * 10 + (c.toNat - '0'.toNat)) 0

/-- Result of `strconv.ParseFloat`, restricted to what the parser
inspects: the value on success, `ErrRange` with the saturated sign, or
`ErrSyntax`. -/
inductive FloatParse where
  | ok (q : ℚ)
  | rangeErr (neg : Bool)
  | syntaxErr
deriving DecidableEq, Repr

/-- Modelled from Go `strconv.ParseFloat`, restricted to the decimal
forms (optional sign, digit run with optional fraction, optional
`e`/`E` exponent with optional sign); the value is computed exactly in
`ℚ` instead of rounding to `float64`.  Hexadecimal-float forms (which Go
only accepts with a mandatory `p` exponent, something the lexer can never
emit) and `inf`/`nan` spellings fall out as syntax errors via the
trailing-garbage check.  Returns `none` for `ErrSyntax`.  The rational is
assembled with `mkRat` so that concrete decodings reduce. -/
def goParseFloatQ (v : String) : Option ℚ :=
  let cs := v.toList
  let psgn :=
    match cs with
    | c :: t => if c = '-' then ((-1 : ℤ), t) else if c = '+' then ((1 : ℤ), t) else ((1 : ℤ), cs)
    | [] => ((1 : ℤ), cs)
  let sgn := psgn.1
  let p1 := psgn.2.span isDigit
  let d1 := p1.1
  let p2 :=
    match p1.2 with
    | '.' :: t => ((t.span isDigit).1, (t.span isDigit).2)
    | _ => (([] : List Char), p1.2)
  let d2 := p2.1
  let cs2 := p2.2
  if d1.isEmpty && d2.isEmpty then none
  else
    let mant : ℤ := sgn * (digitsVal (d1 ++ d2) : ℤ)
    let mkVal : ℤ → Option ℚ := fun ex =>
      if 0 ≤ ex then some (mkRat (mant * ((Nat.pow 10 ex.toNat : ℕ) : ℤ)) 1)
      else some (mkRat mant (Nat.pow 10 (-ex).toNat))
    match cs2 with
    | [] => mkVal (-(d2.length : ℤ))
    | c :: t =>
      if c = 'e' || c = 'E' then
        let pe :=
          match t with
          | '-' :: u => ((-1 : ℤ), u)
          | '+' :: u => ((1 : ℤ), u)
          | _ => ((1 : ℤ), t)
        let ped := pe.2.span isDigit
        if ped.1.isEmpty then none
        else
          match ped.2 with
          | [] => mkVal (pe.1 * (digitsVal ped.1 : ℤ) - (d2.length : ℤ))
          | _ => none
      else none

/-- Modelled from Go `strconv.ParseFloat`: classify the exact value
against the `float64` overflow bound `2 ^ 1024` (the exact rounding
boundary is immaterial here; no theorem goes near it, and underflow is
not modelled). -/
def goParseFloat (v : String) : FloatParse :=
  match goParseFloatQ v with
  | none => .syntaxErr
  | some q =>
    if Nat.pow 2 1024 * q.den ≤ q.num.natAbs then .rangeErr (q.num < 0)
    else .ok q

/-- Result of `strconv.ParseInt(v, 0, 64)` as the parser inspects it. -/
inductive IntParse where
  | ok (z : ℤ)
  | rangeErr
  | syntaxErr
deriving DecidableEq, Repr

/-- Hexadecimal digit value. -/
def hexVal (c : Char) : ℕ :=
  if isDigit c then c.toNat - '0'.toNat
  else if 'a' ≤ c && c ≤ 'f' then c.toNat - 'a'.toNat + 10
  else c.toNat - 'A'.toNat + 10

/-- Modelled from Go `strconv.ParseInt(v, 0, 64)`: optional sign, base
detected from the `0x`/`0X` (16), leading-`0` (8) or bare (10) prefix,
digit run folded in that base, `ErrRange` outside `int64`.  Underscore
digit separators are not modelled (the lexer can never emit them). -/
def goParseInt0 (v : String) : IntParse :=
  let cs := v.toList
  let (neg, cs) :=
    match cs with
    | '-' :: t => (true, t)
    | '+' :: t => (false, t)
    | _ => (false, cs)
  let (base, ds) :=
    match cs with
    | '0' :: 'x' :: t => ((16 : ℕ), t)
    | '0' :: 'X' :: t => ((16 : ℕ), t)
    | '0' :: c :: t => ((8 : ℕ), c :: t)
    | _ => ((10 : ℕ), cs)
  let digOK : Char → Bool := fun c =>
    if base = 16 then isHexDigit c
    else if base = 8 then '0' ≤ c && c ≤ '7'
    else isDigit c
  if ds.isEmpty || !(ds.all digOK) then
    if cs = ['0'] then .ok 0 else .syntaxErr
  else
    let n : ℕ := ds.foldl (fun a c => a * base + hexVal c) 0
    if n ≥ 2 ^ 63 then .rangeErr
    else .ok (if neg then -(n : ℤ) else (n : ℤ))

/-- Modelled from Go `strconv.Unquote` on double-quoted literals,
restricted to the single-character escapes; other escape forms decode as
errors (`none`).  No theorem below depends on string decoding. -/
def goUnquoteChars : List Char → Option (List Char)
  | [] => some []
  | '\\' :: c :: rest =>
    match c with
    | 'n' => (goUnquoteChars rest).map (fun l => '\n' :: l)
    | 't' => (goUnquoteChars rest).map (fun l => '\t' :: l)
    | 'r' => (goUnquoteChars rest).map (fun l => '\r' :: l)
    | '\\' => (goUnquoteChars rest).map (fun l => '\\' :: l)
    | '"' => (goUnquoteChars rest).map (fun l => '"' :: l)
    | _ => none
  | '\\' :: [] => none
  | '"' :: _ => none
  | c :: rest => (goUnquoteChars rest).map (fun l => c :: l)

/-- Modelled from Go `strconv.Unquote`: the value must be a
double-quoted literal; its body is decoded by `goUnquoteChars`. -/
def goUnquote (v : String) : Option String :=
  match v.toList with
  | '"' :: rest =>
    match rest.reverse with
    | '"' :: mid => (goUnquoteChars mid.reverse).map String.mk
    | _ => none
  | _ => none

/-- Runtime values (the `Interface` of the Go code).  Go objects are
pointers whose `Slots` map is a reference; the mutable slot maps live in
an explicit store (`VMSt`) and an object carries the index (`slotsRef`)
of its map, which is exactly the observable content of Go's map-reference
semantics.  Constructors:
* `objV` — a plain `*Object` (slots reference + protos);
* `blockV` — a `*Block` (embedded object fields, body message chain
  which is a possibly-nil `*Message`, captured `Self`, parameter names,
  `Activatable` flag);
* `numV`/`strV` — numbers and strings (their method libraries are out of
  scope, spec section 1);
* `msgV` — a `*Message` used as a value;
* `callV` — a Call activation record, modelled from the spec (section 3):
  sender locals, activated block, call-site message node, target;
* `cfunV` — a built-in `CFunction`, identified by name;
* `stopV` — the non-local-control signal `Stop` carrying its `Result`;
* `nilObjV` — the designated no-value sentinel `vm.Nil`;
* `errV` — a runtime error value (`vm.IoError`), which flows through the
  ordinary result channel (spec section 7). -/
inductive IVal where
  | objV (slotsRef : Nat) (protos : List IVal)
  | blockV (slotsRef : Nat) (protos : List IVal) (message : Option (List Msg))
      (self : Option IVal) (argNames : List String) (activatable : Bool)
  | numV (n : IoNum)
  | strV (s : String)
  | msgV (chain : List Msg)
  | callV (sender : IVal) (activated : IVal) (message : Msg) (target : IVal)
  | cfunV (name : String)
  | stopV (result : IVal)
  | nilObjV
  | errV (e : String)

/-- The `Block` struct of block.go: embedded `Object` (slots reference and
protos), body `*Message`, captured `Self` (`none` is Go nil), `ArgNames`,
`Activatable`. -/
structure Block where
  slotsRef : Nat
  protos : List IVal
  message : Option (List Msg)
  self : Option IVal
  argNames : List String
  activatable : Bool

/-- A `*Block` as an `Interface` value. -/
def IVal.ofBlock (b : Block) : IVal :=
  .blockV b.slotsRef b.protos b.message b.self b.argNames b.activatable

/-- The VM configuration the front end reads: `vm.BaseObject`, `vm.Nil`,
and `vm.DefaultSlots` mapping a kind name to the reference of its shared
default `Slots` map (in Go, `vm.DefaultSlots["Block"]` *is* that map; the
reference is its model). -/
structure VM where
  baseObject : IVal
  nilval : IVal
  DefaultSlots : String → Nat

/-- Parse errors (`error` values built with `fmt.Errorf` in the source),
one constructor per format string:
`"empty argument"`, `"expected %q, got %q"` (bracket family mismatch),
`"unexpected %q"` (close bracket with no matching opener),
the top-level comma error, the `strconv` decode errors, a lexical error
carried by a bad token, and the fuel artifact (never reached with the
fuel budgets used below). -/
inductive PErr where
  | emptyArgument
  | expectedClose (expected got : String)
  | unexpectedClose (got : String)
  | topLevelComma
  | numberSyntax (lit : String)
  | hexSyntax (lit : String)
  | unquoteErr (lit : String)
  | lexical (msg : String)
  | fuelOut
deriving DecidableEq, Repr

/-- Result of one `parseRecurse` call: the terminating token (`none`
when the token stream was exhausted), the message chain (`nil` when no
message was parsed), the error, and the unconsumed tokens — or a panic.
The panic arises from the deferred pruning `m.Prev.Next = nil`, which
dereferences a nil `Prev` whenever an error return happens while `m` is
the first node of the chain (reachable, e.g. on `f(,)`). -/
inductive PRes where
  | ret (tok : Option Token) (msg : Option (List Msg)) (err : Option PErr) (rest : List Token)
  | panicked

/-- Result of the argument-collecting loop inside the open-bracket case:
the accumulated `Args`, the last (close-terminated) argument chain, the
terminating token, the error, and the unconsumed tokens — or a
propagated panic. -/
inductive ArgsRes where
  | aret (args : List (Option (List Msg))) (amsg : Option (List Msg)) (atok : Option Token)
      (err : Option PErr) (rest : List Token)
  | apanic

/-- A fresh message node as `parseRecurse` allocates it:
`&Message{Object: Object{Slots: vm.DefaultSlots["Message"], ...}}` with
the given symbol. -/
def mkMsgNode (vm : VM) (sym : IoSymbol) (memo : Option PVal) : Msg :=
  Msg.mk (vm.DefaultSlots "Message") sym [] memo

/-- The `IsStart` test of the node currently being filled: its `Prev` is
the last completed node of the chain (`nil` when there is none), and
`IsStart` holds when there is no `Prev` or the `Prev` is a statement
separator. -/
def accIsStart (acc : List Msg) : Bool :=
  match acc.getLast? with
  | none => true
  | some m => m.sym.kind = SymKind.SemiSym

/-- The deferred chain pruning of `parseRecurse`: a chain whose first
node never got a symbol is returned as nil; otherwise the trailing empty
node (the one still being filled) is cut off.  In this representation the
completed nodes are exactly `acc`, so the prune is: empty list to nil. -/
def pruneChain (acc : List Msg) : Option (List Msg) :=
  if acc.isEmpty then none else some acc

/-- Whether an optional `Args` entry is present and is the nil chain
(the `m.Args[i] == nil` tests of the arity patching). -/
def nilEntry : Option (Option (List Msg)) → Bool
  | some none => true
  | _ => false

mutual

/-- Transcription of `parseRecurse` from the parse source file.  `openCh`
is the expected enclosing bracket (`none` is the top-level sentinel -1);
`acc` holds the completed nodes of the chain being built (the node still
being filled is kept implicit — it is what the deferred prune cuts off);
the fuel decreases at every recursive call and never runs out for the
budgets used below.

Error returns reached inside the open-bracket case happen while `m` is
the node the arguments attach to.  When that node is the first of its
chain its `Prev` is nil and the deferred `m.Prev.Next = nil` panics;
otherwise the prune cuts the attachee itself off the returned chain.
All other returns happen while `m` is the trailing node still being
filled, for which the prune is `pruneChain`. -/
def parseLoop (vm : VM) : Nat → Option Char → List Msg → List Token → PRes
  | 0, _, _, toks => .ret none none (some .fuelOut) toks
  | _ + 1, _, acc, [] => .ret none (pruneChain acc) none []
  | fuel + 1, openCh, acc, tok :: rest =>
    match tok.kind with
    | .badToken => .ret (some tok) (pruneChain acc) (some (.lexical (tok.err.getD ""))) rest
    | .semiToken =>
      if accIsStart acc then
        -- empty statement
        parseLoop vm fuel openCh acc rest
      else
        parseLoop vm fuel openCh
          (acc ++ [mkMsgNode vm { kind := .SemiSym, text := tok.value } none]) rest
    | .identToken =>
      parseLoop vm fuel openCh
        (acc ++ [mkMsgNode vm { kind := .IdentSym, text := tok.value } none]) rest
    | .openToken =>
      -- select the node the arguments attach to, and the completed prefix
      -- before it ("(" after a completed message rewinds: m = m.Prev)
      let sel : List Msg × Msg :=
        match tok.value with
        | "(" =>
          if accIsStart acc then (acc, mkMsgNode vm { kind := .IdentSym } none)
          else
            match acc.getLast? with
            | some lastN => (acc.dropLast, lastN)
            | none => (acc, mkMsgNode vm { kind := .IdentSym } none)  -- unreachable: accIsStart [] = true
        | "[" => (acc, mkMsgNode vm { kind := .IdentSym, text := "squareBrackets" } none)
        | "\x7b" => (acc, mkMsgNode vm { kind := .IdentSym, text := "curlyBrackets" } none)
        | _ => (acc, mkMsgNode vm { kind := .NoSym } none)  -- unreachable: openToken values are (, [, {
      let accInit := sel.1
      let node := sel.2
      let openC : Char := (tok.value.toList.headD ' ')  -- rune(tok.Value[0])
      match parseArgsLoop vm fuel openC node.args rest with
      | .apanic => .panicked
      | .aret args amsg atok errA rest2 =>
        match errA with
        | some e =>
          -- error return inside the argument loop/recursion
          if accInit.isEmpty then .panicked
          else .ret atok (some accInit) (some e) rest2
        | none =>
          -- the arity patching of the source, checked before the final append
          let patched := if args.length == 1 && nilEntry args.head? then [] else args
          let err2 : Option PErr :=
            if decide (1 < args.length) && nilEntry args.getLast? then some .emptyArgument
            else none
          match err2 with
          | some e =>
            -- "empty argument"; same deferred-prune behavior as above
            if accInit.isEmpty then .panicked
            else .ret atok (some accInit) (some e) rest2
          | none =>
            parseLoop vm fuel openCh
              (accInit ++ [Msg.mk node.slotsRef node.sym (patched ++ [amsg]) node.memo]) rest2
    | .closeToken =>
      let err : Option PErr :=
        match openCh with
        | some '(' => if tok.value ≠ ")" then some (.expectedClose ")" tok.value) else none
        | some '[' => if tok.value ≠ "]" then some (.expectedClose "]" tok.value) else none
        | some '{' => if tok.value ≠ "\x7d" then some (.expectedClose "\x7d" tok.value) else none
        | _ => some (.unexpectedClose tok.value)
      .ret (some tok) (pruneChain acc) err rest
    | .commaToken =>
      .ret (some tok) (pruneChain acc)
        (if openCh.isNone then some .topLevelComma else none) rest
    | .numberToken =>
      match goParseFloat tok.value with
      | .ok q =>
        parseLoop vm fuel openCh
          (acc ++ [mkMsgNode vm { kind := .NumSym, num := .fin q } (some (.num (.fin q)))]) rest
      | .rangeErr neg =>
        -- numeric overflow: err is cleared, the value saturates to ±Inf
        parseLoop vm fuel openCh
          (acc ++ [mkMsgNode vm { kind := .NumSym, num := .inf neg } (some (.num (.inf neg)))]) rest
      | .syntaxErr => .ret (some tok) (pruneChain acc) (some (.numberSyntax tok.value)) rest
    | .hexToken =>
      match goParseInt0 tok.value with
      | .ok z =>
        parseLoop vm fuel openCh
          (acc ++ [mkMsgNode vm { kind := .NumSym, num := .fin z } (some (.num (.fin z)))]) rest
      | .rangeErr =>
        let f : IoNum := .inf (tok.value.toList.headD ' ' = '-')
        parseLoop vm fuel openCh
          (acc ++ [mkMsgNode vm { kind := .NumSym, num := f } (some (.num f))]) rest
      | .syntaxErr => .ret (some tok) (pruneChain acc) (some (.hexSyntax tok.value)) rest
    | .stringToken =>
      match goUnquote tok.value with
      | some s =>
        parseLoop vm fuel openCh
          (acc ++ [mkMsgNode vm { kind := .StringSym, str := s } (some (.str s))]) rest
      | none => .ret (some tok) (pruneChain acc) (some (.unquoteErr tok.value)) rest
    | .triquoteToken =>
      let s := String.mk ((tok.value.toList.drop 3).take (tok.value.length - 6))
      parseLoop vm fuel openCh
        (acc ++ [mkMsgNode vm { kind := .StringSym, str := s } (some (.str s))]) rest

/-- The `for atok, amsg, err = vm.parseRecurse(...); atok.Kind ==
commaToken; ...` loop of the open-bracket case: repeat the recursive call
while it terminates on a comma, erroring on a nil comma-terminated
argument chain and appending the others to `args`. -/
def parseArgsLoop (vm : VM) : Nat → Char → List (Option (List Msg)) → List Token → ArgsRes
  | 0, _, args, toks => .aret args none none (some .fuelOut) toks
  | fuel + 1, openC, args, toks =>
    match parseLoop vm fuel (some openC) [] toks with
    | .panicked => .apanic
    | .ret atok amsg err rest =>
      if (atok.map Token.kind) = some .commaToken then
        let err := if amsg.isNone then some PErr.emptyArgument else err
        match err with
        | some e => .aret args amsg atok (some e) rest
        | none => parseArgsLoop vm fuel openC (args ++ [amsg]) rest
      else
        .aret args amsg atok err rest

end

/-- Outcome of `vm.Parse`: the chain and error it returns, or a process
panic (from the lexer's `panic(r)` or the parser's nil dereference). -/
inductive ParseOut where
  | ret (msg : Option (List Msg)) (err : Option PErr)
  | panicked

/-- `vm.Parse` on an already-lexed token stream:
`parseRecurse(-1, src, tokens)` keeping the chain and the error. -/
def vmParse (vm : VM) (toks : List Token) : ParseOut :=
  match parseLoop vm (3 * toks.length + 3) none [] toks with
  | .panicked => .panicked
  | .ret _ msg err _ => .ret msg err

/-- `vm.Parse` on a source string: lex, then parse.  A lexer panic is a
process crash (the fuel artifact is folded into the same outcome; it is
unreachable for the budgets used). -/
def parseString (vm : VM) (s : String) : ParseOut :=
  match runLexStr s with
  | .ok toks => vmParse vm toks
  | _ => .panicked

/-- A `Slots` map: an association list of slot names to values. -/
abbrev SlotMap : Type := List (String × IVal)

/-- Write a slot in a slot map (overwrite an existing binding, append a
new one). -/
def slotsSet : SlotMap → String → IVal → SlotMap
  | [], name, v => [(name, v)]
  | (k, w) :: rest, name, v =>
    if k = name then (k, v) :: rest else (k, w) :: slotsSet rest name v

/-- Read a slot from a slot map. -/
def slotsGet : SlotMap → String → Option IVal
  | [], _ => none
  | (k, w) :: rest, name => if k = name then some w else slotsGet rest name

/-- The mutable heap of `Slots` maps.  Go maps are reference values: every
object holds an index into this store, and two objects built from the same
map literally share the entry. -/
structure VMSt where
  store : List SlotMap

/-- Modelled from the spec (section 3): `SetSlot(o, name, v)` mutates the
object's slot map in place.  The object's map is `store[ref]`. -/
def VMSt.setSlot (st : VMSt) (ref : Nat) (name : String) (v : IVal) : VMSt :=
  ⟨st.store.set ref (slotsSet (st.store.getD ref []) name v)⟩

/-- Read a slot directly off the map at `ref` (no proto traversal). -/
def VMSt.getSlotAt (st : VMSt) (ref : Nat) (name : String) : Option IVal :=
  slotsGet (st.store.getD ref []) name

/-- Allocate a fresh empty slot map (a `Slots{}` literal); returns the
new store and the reference. -/
def VMSt.alloc (st : VMSt) : VMSt × Nat :=
  (⟨st.store ++ [[]]⟩, st.store.length)

mutual

/-- Modelled from the spec (section 3): slot lookup walks the receiver's
own slots first, then each proto in declared order, depth first; the fuel
guards against cyclic proto graphs.  Kinds whose slot sets are out of
scope (numbers, strings, ...) resolve nothing. -/
def getSlotVal : Nat → VMSt → IVal → String → Option IVal
  | 0, _, _, _ => none
  | fuel + 1, st, v, name =>
    match v with
    | .objV ref protos =>
      match st.getSlotAt ref name with
      | some w => some w
      | none => getSlotProtos fuel st protos name
    | .blockV ref protos _ _ _ _ =>
      match st.getSlotAt ref name with
      | some w => some w
      | none => getSlotProtos fuel st protos name
    | _ => none

/-- Depth-first lookup through a proto list (spec section 3). -/
def getSlotProtos : Nat → VMSt → List IVal → String → Option IVal
  | _, _, [], _ => none
  | 0, _, _, _ => none
  | fuel + 1, st, p :: ps, name =>
    match getSlotVal fuel st p name with
    | some w => some w
    | none => getSlotProtos fuel st ps name

end

/-- Modelled from the spec: `Message.ArgAt(i)` returns the i-th argument
message chain, nil when the index is out of range or the stored entry is
itself nil.  Its use in `ObjectBlock` (result assigned to the `*Message`
field) fixes that it returns the argument message unevaluated; the Call
record likewise exposes "the original call-site arguments unevaluated"
(spec section 3).  The index is an integer because `ObjectBlock` calls it
with `len(msg.Args) - 1`, which is -1 for an empty argument list. -/
def Msg.ArgAt (m : Msg) (i : ℤ) : Option (List Msg) :=
  if 0 ≤ i then (m.args.get? i.toNat).join else none

/-- Modelled from the spec: `Message.Name()` — the identifier text of the
message node (used by `ObjectBlock` on each parameter-declaring argument). -/
def msgName : Option (List Msg) → String
  | some (m :: _) => m.sym.text
  | _ => ""

/-- The unwrap-once step shared by `reallyActivate` and `DoMessage`:
`if stop, ok := result.(Stop); ok { return stop.Result }; return result`. -/
def unwrapStop : IVal → IVal
  | .stopV r => r
  | r => r

/-- The argument-binding loop of `reallyActivate`:
`for i, arg := range b.ArgNames { if x := msg.ArgAt(i); x != nil {
SetSlot(blkLocals, arg, x) } else { SetSlot(blkLocals, arg, vm.Nil) } }`.
Note the binding is the argument message itself (`x`), not its
evaluation. -/
def bindArgNames (vm : VM) : VMSt → Nat → List String → Msg → ℤ → VMSt
  | st, _, [], _, _ => st
  | st, ref, arg :: rest, msg, i =>
    let st := match msg.ArgAt i with
      | some x => st.setSlot ref arg (.msgV x)
      | none => st.setSlot ref arg vm.nilval
    bindArgNames vm st ref rest msg (i + 1)

/-- The locals-construction prefix of `reallyActivate`: allocate
`blkLocals` (fresh slots, protos `[vm.BaseObject]`), bind the declared
parameters, compute the lexical scope (`b.Self`, falling back to the
activation target), build the Call record (modelled from the spec,
section 3: sender locals, activated block, call-site message, target) and
install the `self` and `call` slots.  Returns the updated store and the
reference of the fresh locals object. -/
def activationLocalsStore (vm : VM) (st : VMSt) (b : Block) (target locals : IVal)
    (msg : Msg) : VMSt × Nat :=
  let p := st.alloc
  let st := p.1
  let ref := p.2
  let st := bindArgNames vm st ref b.argNames msg 0
  let scope := b.self.getD target
  let callv := IVal.callV locals (IVal.ofBlock b) msg target
  let st := st.setSlot ref "self" scope
  let st := st.setSlot ref "call" callv
  (st, ref)

mutual

/-- Modelled from the spec (section 4.3): evaluate one message node
against the current result `cur` (the receiver) and the chain's `locals`:
literal nodes yield their (memoized) literal value, separators reset the
receiver to the locals, identifier nodes resolve the name in the
receiver's proto graph and invoke the found value's activate operation,
and a failed lookup produces a runtime error value flowing through the
ordinary result channel (spec section 7). -/
def evalStep : Nat → VM → VMSt → IVal → IVal → Msg → VMSt × IVal
  | 0, _, st, _, _, _ => (st, .errV "out of fuel")
  | fuel + 1, vm, st, locals, cur, m =>
    match m.sym.kind with
    | .NoSym => (st, cur)
    | .SemiSym => (st, locals)
    | .NumSym => (st, .numV m.sym.num)
    | .StringSym => (st, .strV m.sym.str)
    | .IdentSym =>
      match getSlotVal fuel st cur m.sym.text with
      | some v => activate fuel vm st v cur locals m
      | none => (st, .errV ("slot not found: " ++ m.sym.text))

/-- Modelled from the spec (sections 4.3 and its state-machine summary):
`Message.Eval` walks the chain left to right, feeding each node's result
to the next as receiver; a non-local-control signal (`Stop`) encountered
at any node short-circuits the remaining siblings and propagates. -/
def evalChain : Nat → VM → VMSt → IVal → IVal → List Msg → VMSt × IVal
  | 0, _, st, _, _, _ => (st, .errV "out of fuel")
  | _ + 1, _, st, _, cur, [] => (st, cur)
  | fuel + 1, vm, st, locals, cur, m :: rest =>
    match evalStep fuel vm st locals cur m with
    | (st2, .stopV r) => (st2, .stopV r)
    | (st2, v) => evalChain fuel vm st2 locals v rest

/-- Modelled from the spec (section 4.3): activate is polymorphic —
blocks dispatch to `Block.Activate` (from block.go), built-in
CFunctions run their implementation, every other kind is passive data
returning itself. -/
def activate : Nat → VM → VMSt → IVal → IVal → IVal → Msg → VMSt × IVal
  | 0, _, st, _, _, _, _ => (st, .errV "out of fuel")
  | fuel + 1, vm, st, v, target, locals, m =>
    match v with
    | .blockV a pr me se an ac => Block.Activate fuel vm st ⟨a, pr, me, se, an, ac⟩ target locals m
    | .cfunV name => cfunImpl fuel vm st name target locals m
    | w => (st, w)

/-- Transcription of `Block.Activate` from block.go: a block that is not
activatable is the result of evaluation (returned unchanged); otherwise
it is really activated. -/
def Block.Activate : Nat → VM → VMSt → Block → IVal → IVal → Msg → VMSt × IVal
  | 0, _, st, _, _, _, _ => (st, .errV "out of fuel")
  | fuel + 1, vm, st, b, target, locals, msg =>
    if !b.activatable then (st, .ofBlock b)
    else Block.reallyActivate fuel vm st b target locals msg

/-- Transcription of `Block.reallyActivate` from block.go: build the
fresh locals (`activationLocalsStore`), evaluate the body against them,
and unwrap a `Stop` result once.  A nil body `*Message` is modelled as
the empty chain (the nil-receiver behavior lives outside the sources). -/
def Block.reallyActivate : Nat → VM → VMSt → Block → IVal → IVal → Msg → VMSt × IVal
  | 0, _, st, _, _, _, _ => (st, .errV "out of fuel")
  | fuel + 1, vm, st, b, target, locals, msg =>
    let p := activationLocalsStore vm st b target locals msg
    let blkLocals := IVal.objV p.2 [vm.baseObject]
    match evalChain fuel vm p.1 blkLocals blkLocals (b.message.getD []) with
    | (st2, result) => (st2, unwrapStop result)

/-- Transcription of `BlockCall` from block.go: really activate the
target block regardless of its `Activatable` flag.  The failed type
assertion `target.(*Block)` panics in Go; that case is unreachable in the
theorems below and modelled as an error value. -/
def BlockCall : Nat → VM → VMSt → IVal → IVal → Msg → VMSt × IVal
  | 0, _, st, _, _, _ => (st, .errV "out of fuel")
  | fuel + 1, vm, st, target, locals, msg =>
    match target with
    | .blockV a pr me se an ac =>
      Block.reallyActivate fuel vm st ⟨a, pr, me, se, an, ac⟩ target locals msg
    | _ => (st, .errV "type assertion failed: target is not a Block")

/-- Modelled from the spec: the built-in CFunctions used below.
`"BlockCall"` is `vm.NewCFunction(BlockCall, ...)` installed by
`initBlock`; `"return"` is an early-return builtin producing the
non-local-control signal carrying its (evaluated) argument as payload
(spec sections 7 and the glossary).  Other builtins are out of scope. -/
def cfunImpl : Nat → VM → VMSt → String → IVal → IVal → Msg → VMSt × IVal
  | 0, _, st, _, _, _, _ => (st, .errV "out of fuel")
  | fuel + 1, vm, st, name, target, locals, m =>
    if name = "BlockCall" then BlockCall fuel vm st target locals m
    else if name = "return" then
      match m.ArgAt 0 with
      | some ch =>
        match evalChain fuel vm st locals locals ch with
        | (st2, v) => (st2, .stopV v)
      | none => (st, .stopV vm.nilval)
    else (st, .errV ("cfunction not modelled: " ++ name))

end

/-- Transcription of `ObjectBlock` from block.go: a block literal whose
embedded object uses `vm.DefaultSlots["Block"]` as its `Slots` map and
`[vm.BaseObject]` as protos; body = last argument message (unevaluated),
captured `Self` = the creation-site locals, parameter names = the `Name`s
of the preceding arguments; not activatable.  For a creation message with
no arguments Go's `make([]string, -1)`/`Args[:-1]` panics; the model
returns an empty parameter list instead (no theorem instantiates that
case). -/
def ObjectBlock (vm : VM) (target locals : IVal) (msg : Msg) : Block :=
  { slotsRef := vm.DefaultSlots "Block"
  , protos := [vm.baseObject]
  , message := msg.ArgAt ((msg.args.length : ℤ) - 1)
  , self := some locals
  , argNames := (msg.args.take (msg.args.length - 1)).map msgName
  , activatable := false }

/-- Transcription of `ObjectMethod` from block.go: an `ObjectBlock` made
activatable with its captured self cleared. -/
def ObjectMethod (vm : VM) (target locals : IVal) (msg : Msg) : Block :=
  let blk := ObjectBlock vm target locals msg
  { blk with activatable := true, self := none }

/-- The `Slots` map contents `initBlock` installs as
`vm.DefaultSlots["Block"]`. -/
def initBlockSlots : SlotMap :=
  [("asString", .cfunV "BlockAsString"), ("call", .cfunV "BlockCall")]

/-- Transcription of `VM.DoMessage`: evaluate the chain against the given
locals and unwrap a non-local-control result once. -/
def DoMessage (fuel : Nat) (vm : VM) (st : VMSt) (msg : List Msg) (locals : IVal) :
    VMSt × IVal :=
  match evalChain fuel vm st locals locals msg with
  | (st2, r) => (st2, unwrapStop r)

/-- A concrete VM configuration for the concrete theorems: base object's
slot map at store index 0, the shared `DefaultSlots["Block"]` map at 1,
the shared `DefaultSlots["Message"]` map at 2. -/
def testVM : VM :=
  { baseObject := .objV 0 []
  , nilval := .nilObjV
  , DefaultSlots := fun k => if k = "Block" then 1 else if k = "Message" then 2 else 0 }

/-- A concrete store for `testVM`: the base object carries an
early-return builtin in slot `ret`; index 1 holds `initBlockSlots`;
index 2 the (empty) Message default slots. -/
def testStore : VMSt :=
  ⟨[[("ret", .cfunV "return")], initBlockSlots, []]⟩

/-- A number-literal message node exactly as `parseRecurse` builds it for
`testVM` (symbol and memoized value). -/
def testNumNode (q : ℚ) : Msg :=
  Msg.mk 2 { kind := .NumSym, num := .fin q } [] (some (.num (.fin q)))

/-- An identifier message node as `parseRecurse` builds it for `testVM`. -/
def testIdentNode (t : String) (args : List (Option (List Msg))) : Msg :=
  Msg.mk 2 { kind := .IdentSym, text := t } args none

/-- The lexer classes with no transition out of `eatSpace`: the exact
negation of every dispatch guard, in the source's order. -/
def noLexTransition (c : Char) : Bool :=
  !(" \r\x0c\t\x0b".toList.contains c) && !(c = ';' || c = '\n') && !(isIdentStart c) &&
    !(isOpChar c) && !("([\x7b".toList.contains c) && !(")]\x7d".toList.contains c) &&
    !(c = ',') && !(isDigit c) && !(c = '.') && !(c = '"')

/-- A closure block over creation-site locals `(objV 0 [])`, declaring
one parameter `a`, with an empty body. -/
def c1Block : Block := ⟨1, [testVM.baseObject], some [], some (.objV 0 []), ["a"], true⟩

/-- A one-element argument chain: the literal 7. -/
def c1ArgChain : List Msg := [testNumNode 7]

/-- A call-site message `f(7)`. -/
def c1CallMsg : Msg := testIdentNode "f" [some c1ArgChain]

/-- A closure block whose captured self is the string object `"S"`. -/
def c4Block : Block := ⟨1, [testVM.baseObject], some [], some (.strV "S"), [], false⟩

/-- An arbitrary activation target distinct from the captured self. -/
def c4Target : IVal := .strV "TGT"

/-- Caller-side locals object. -/
def c4Caller : IVal := .objV 0 []

/-- A call-site message with no arguments. -/
def c4CallMsg : Msg := testIdentNode "go" []

/-- A `method(7)` creation message: one argument, the body literal. -/
def c4MkMsg : Msg := testIdentNode "method" [some [testNumNode 7]]

/-- A statement raising the early-return signal with payload 7. -/
def c5RetNode : Msg := testIdentNode "ret" [some [testNumNode 7]]

/-- A block whose body is `ret(7); 99`: without unwinding the result
would be 99. -/
def c5Block : Block :=
  ⟨1, [testVM.baseObject], some [c5RetNode, testNumNode 99], some (.objV 0 []), [], true⟩

/-- A call-site message for `c5Block`. -/
def c5CallMsg : Msg := testIdentNode "go" []

/-- A non-activatable block with body `7`. -/
def c10Block : Block :=
  ⟨1, [testVM.baseObject], some [testNumNode 7], some (.objV 0 []), [], false⟩

/-- A call-site message for `c10Block`. -/
def c10CallMsg : Msg := testIdentNode "call" []

mutual

/-- Every node of a message — recursively through its argument chains —
carries the shared `vm.DefaultSlots["Message"]` map reference as its
`Slots` reference. -/
def msgRefsOK (vm : VM) : Msg → Bool
  | .mk ref _ args _ => (ref == vm.DefaultSlots "Message") && argsRefsOK vm args

/-- `msgRefsOK` over an optional argument chain (a nil entry is fine). -/
def optChainRefsOK (vm : VM) : Option (List Msg) → Bool
  | none => true
  | some ch => chainRefsOK vm ch

/-- `msgRefsOK` over an argument list. -/
def argsRefsOK (vm : VM) : List (Option (List Msg)) → Bool
  | [] => true
  | a :: rest => optChainRefsOK vm a && argsRefsOK vm rest

/-- `msgRefsOK` over a message chain. -/
def chainRefsOK (vm : VM) : List Msg → Bool
  | [] => true
  | m :: rest => msgRefsOK vm m && chainRefsOK vm rest

end

/-- The shared-reference invariant on a `parseRecurse` result. -/
def presRefsOK (vm : VM) : PRes → Bool
  | .ret _ msg _ _ => optChainRefsOK vm msg
  | .panicked => true

/-- The shared-reference invariant on an argument-loop result. -/
def aresRefsOK (vm : VM) : ArgsRes → Bool
  | .aret args amsg _ _ _ => argsRefsOK vm args && optChainRefsOK vm amsg
  | .apanic => true

/-- A `block(7)` creation message. -/
def c9MkMsg : Msg := testIdentNode "block" [some [testNumNode 7]]

/-- A concrete token stream (`f(1)`) for the parser conjunct's witness. -/
def c9Toks : List Token :=
  [⟨.identToken, "f", none⟩, ⟨.openToken, "(", none⟩,
   ⟨.numberToken, "1", none⟩, ⟨.closeToken, ")", none⟩]

/-- C2: the spec says `f()` has exactly zero arguments, `f(,)` and
`f(1,)` are "empty argument" errors, and `f(1,2)` has exactly two.  The
code's own comments state that intent, but the arity checks run *before*
the final argument chain is appended, so on the real code: `f()` parses
with one nil argument entry; `f(,)` does error inside the loop, but the
deferred prune then dereferences the nil `Prev` of the first chain node —
a panic; `f(1,)` parses without error, with a trailing nil argument; only
`f(1,2)` behaves as specified. -/
theorem c2_argument_arity :
    parseString testVM "f()" = .ret (some [testIdentNode "f" [none]]) none
    ∧ parseString testVM "f(,)" = .panicked
    ∧ parseString testVM "f(1,)" =
        .ret (some [testIdentNode "f" [some [testNumNode 1], none]]) none
    ∧ parseString testVM "f(1,2)" =
        .ret (some [testIdentNode "f" [some [testNumNode 1], some [testNumNode 2]]]) none := by
  exact ⟨rfl, rfl, rfl, rfl⟩

/-- C3 claim as it fails: the value the parser's hex case would decode
(`strconv.ParseInt(v, 0, 64)`) versus what the lexer actually emits. -/
theorem goParseInt0_0x1F : goParseInt0 "0x1F" = .ok 31 := by decide

/-- C3: the spec says a digit run followed by `x`/`X` becomes a single
hex-number token decoding to 31 for `"0x1F"`.  The code declares the
`hexToken` kind and the parser's `hexToken` case would decode `"0x1F"` to
31, but `lexNumber`'s hex branch uses `numberToken`, never consumes the
`x`, and is missing its `return`, so `"0x1F"` lexes as two `numberToken`s
of value `"0x"` followed by the identifier `"x1F"`, and parsing then
fails on the float decode of `"0x"`. -/
theorem c3_hex_lexing : runLexStr "0x1F" =
      .ok [⟨.numberToken, "0x", none⟩, ⟨.numberToken, "0x", none⟩, ⟨.identToken, "x1F", none⟩]
    ∧ goParseInt0 "0x1F" = .ok 31
    ∧ parseString testVM "0x1F" = .ret none (some (.numberSyntax "0x")) := by
  refine ⟨by decide, goParseInt0_0x1F, ?_⟩
  rfl

/-- C7: the spec says `1e-5` lexes as one number token with its signed
exponent.  The exponent branch's sign test inspects the `e`/`E` it just
re-read instead of the following character, so the sign arm is dead:
`"1e-5"` lexes as the number `"1e"`, the operator `-`, and the number
`"5"`, and parsing fails on the float decode of `"1e"`. -/
theorem c7_exponent_sign : runLexStr "1e-5" =
      .ok [⟨.numberToken, "1e", none⟩, ⟨.identToken, "-", none⟩, ⟨.numberToken, "5", none⟩]
    ∧ parseString testVM "1e-5" = .ret none (some (.numberSyntax "1e")) := by
  refine ⟨by decide, ?_⟩
  rfl

/-- C8 counterexample: the claim says a trailing dot with no fractional
digit is a malformed-number lexical error and not a successfully decoded
number; but `"3."` lexes as a single well-formed number token and parses
to the number 3 with no error of any kind. -/
theorem c8_counterexample : runLexStr "3." = .ok [⟨.numberToken, "3.", none⟩]
    ∧ parseString testVM "3." = .ret (some [testNumNode 3]) none := by
  constructor
  · decide
  · rfl

/-- A run of characters all satisfying the predicate is consumed whole by
`accept`. -/
theorem accept_all (p : Char → Bool) (ds rest : List Char) (b : String)
    (h : ds.all p = true) :
    accept p (ds ++ rest) b = accept p rest (ds.foldl String.push b) := by
  induction ds generalizing b with
  | nil => rfl
  | cons d t ih =>
    rw [List.all_cons, Bool.and_eq_true] at h
    simpa [accept, h.1] using ih (b.push d) h.2

/-- Folding `String.push` appends the character list. -/
theorem foldl_push_eq (ds : List Char) (b : String) :
    ds.foldl String.push b = String.mk (b.data ++ ds) := by
  induction ds generalizing b with
  | nil => rw [List.foldl_nil, List.append_nil]
  | cons d t ih =>
    rw [List.foldl_cons, ih]
    apply congrArg
    show b.data ++ [d] ++ t = b.data ++ d :: t
    simp

/-- `takeWhile` passes over a fully satisfying prefix. -/
theorem takeWhile_all_append (p : Char → Bool) (ds rest : List Char) (h : ds.all p = true) :
    (ds ++ rest).takeWhile p = ds ++ rest.takeWhile p := by
  induction ds with
  | nil => rfl
  | cons d t ih =>
    rw [List.all_cons, Bool.and_eq_true] at h
    simp [List.takeWhile_cons, h.1, ih h.2]

/-- `dropWhile` drops a fully satisfying prefix. -/
theorem dropWhile_all_append (p : Char → Bool) (ds rest : List Char) (h : ds.all p = true) :
    (ds ++ rest).dropWhile p = rest.dropWhile p := by
  induction ds with
  | nil => rfl
  | cons d t ih =>
    rw [List.all_cons, Bool.and_eq_true] at h
    simp [List.dropWhile_cons, h.1, ih h.2]

/-- C8 as amended: a digit run followed by `.` and no further digit is
not an error: it lexes as one well-formed number token including the
trailing dot, and Go's float decode accepts that token, yielding the
integer value of the digit run. -/
theorem c8_amended (ds : List Char) (h1 : ds ≠ []) (h2 : ds.all isDigit = true) :
    lexNumber (ds ++ ['.']) = ([⟨.numberToken, String.mk (ds ++ ['.']), none⟩], .halt)
    ∧ goParseFloatQ (String.mk (ds ++ ['.'])) = some ((digitsVal ds : ℚ)) := by
  constructor
  · have hacc : accept isDigit (ds ++ ['.']) "" = (String.mk ds, some '.', ['.']) := by
      rw [accept_all isDigit ds ['.'] "" h2, foldl_push_eq]
      rfl
    simp only [lexNumber, hacc]
    rfl
  · cases ds with
    | nil => exact absurd rfl h1
    | cons d t =>
      have hd : isDigit d = true := by
        rw [List.all_cons, Bool.and_eq_true] at h2
        exact h2.1
      have hd1 : ¬ (d = '-') := by
        rintro rfl
        exact absurd hd (by decide)
      have hd2 : ¬ (d = '+') := by
        rintro rfl
        exact absurd hd (by decide)
      have hspan : (d :: (t ++ ['.'])).span isDigit = (d :: t, ['.']) := by
        show ((d :: t) ++ ['.']).span isDigit = (d :: t, ['.'])
        rw [List.span_eq_take_drop, takeWhile_all_append isDigit _ _ h2,
          dropWhile_all_append isDigit _ _ h2,
          show List.takeWhile isDigit ['.'] = [] from rfl,
          show List.dropWhile isDigit ['.'] = ['.'] from rfl]
        simp
      show goParseFloatQ (String.mk ((d :: t) ++ ['.'])) = _
      simp only [goParseFloatQ]
      have hcs : (String.mk ((d :: t) ++ ['.'])).toList = d :: (t ++ ['.']) := rfl
      rw [hcs]
      simp only [if_neg hd1, if_neg hd2, hspan]
      simp [Rat.mkRat_one]

/-- C8 witness: the amended statement at the digit run `3`. -/
theorem c8_amended_witness :
    lexNumber (['3'] ++ ['.']) = ([⟨.numberToken, String.mk (['3'] ++ ['.']), none⟩], .halt)
    ∧ goParseFloatQ (String.mk (['3'] ++ ['.'])) = some ((digitsVal ['3'] : ℚ)) :=
  c8_amended ['3'] (by decide) (by decide)

/-- A character in none of `eatSpace`'s classes reaches the source's
`panic(r)`. -/
theorem eatSpace_noTransition (c : Char) (rest : List Char) (h : noLexTransition c = true) :
    eatSpace (c :: rest) = ([], .panicked c) := by
  simp only [noLexTransition, Bool.and_eq_true, Bool.not_eq_true'] at h
  obtain ⟨⟨⟨⟨⟨⟨⟨⟨⟨h1, h2⟩, h3⟩, h4⟩, h5⟩, h6⟩, h7⟩, h8⟩, h9⟩, h10⟩ := h
  simp at h1 h2 h5 h6 h7 h9 h10
  simp only [eatSpace]
  simp [h1, h2, h3, h4, h5, h6, h7, h8, h9, h10]

/-- C6 counterexample: the claim says an unexpected character is surfaced
to the caller of parse as a single terminal (lexical) error value, never
by crashing the process; but on input `#` the lexer hits `panic(r)` — the
process crashes and no token stream or error value is delivered. -/
theorem c6_counterexample :
    runLexStr "#" = .panicked '#' ∧ parseString testVM "#" = .panicked := by
  exact ⟨by decide, rfl⟩

/-- C6 as amended: every input starting with a character that has no
lexer transition makes the lexer fail loudly with a panic (a process
crash); the character is never silently skipped and never converted into
an error value. -/
theorem c6_amended (c : Char) (rest : List Char) (fuel : Nat) (h : noLexTransition c = true) :
    runLex (fuel + 1) (c :: rest) = .panicked c := by
  simp only [runLex, eatSpace_noTransition c rest h]

/-- C6 witness: the amended statement at `#`. -/
theorem c6_amended_witness : runLex (0 + 1) ['#'] = .panicked '#' :=
  c6_amended '#' [] 0 (by decide)

/-- Setting then reading the same slot name. -/
theorem slotsGet_set_same (m : SlotMap) (k : String) (v : IVal) :
    slotsGet (slotsSet m k v) k = some v := by
  induction m with
  | nil => simp [slotsSet, slotsGet]
  | cons p rest ih =>
    obtain ⟨k2, w⟩ := p
    by_cases h : k2 = k
    · simp [slotsSet, slotsGet, h]
    · simp [slotsSet, slotsGet, h, ih]

/-- Setting one slot leaves the others unchanged. -/
theorem slotsGet_set_other (m : SlotMap) (k k2 : String) (v : IVal) (h : k ≠ k2) :
    slotsGet (slotsSet m k2 v) k = slotsGet m k := by
  induction m with
  | nil => simp [slotsSet, slotsGet, Ne.symm h]
  | cons p rest ih =>
    obtain ⟨k3, w⟩ := p
    by_cases h2 : k3 = k2
    · subst h2
      simp [slotsSet, slotsGet, Ne.symm h]
    · by_cases h3 : k3 = k
      · simp [slotsSet, slotsGet, h2, h3, h]
      · simp [slotsSet, slotsGet, h2, h3, ih]

/-- Writing inside the bounds of the store then reading the same index. -/
theorem store_getD_set_eq (l : List SlotMap) (i : Nat) (m : SlotMap) (h : i < l.length) :
    (l.set i m).getD i [] = m := by
  induction l generalizing i with
  | nil => simp at h
  | cons a t ih =>
    cases i with
    | zero => rfl
    | succ n =>
      simp only [List.set_cons_succ, List.getD_cons_succ]
      exact ih n (by simpa using h)

/-- `SetSlot` then `GetSlot` of the same name on the same map reference. -/
theorem getSlotAt_setSlot_same (st : VMSt) (ref : Nat) (k : String) (v : IVal)
    (h : ref < st.store.length) :
    (st.setSlot ref k v).getSlotAt ref k = some v := by
  simp only [VMSt.setSlot, VMSt.getSlotAt]
  rw [store_getD_set_eq _ _ _ h]
  exact slotsGet_set_same _ _ _

/-- `SetSlot` of a different name does not disturb a read. -/
theorem getSlotAt_setSlot_other (st : VMSt) (ref : Nat) (k k2 : String) (v : IVal)
    (h : k ≠ k2) :
    (st.setSlot ref k2 v).getSlotAt ref k = st.getSlotAt ref k := by
  by_cases hr : ref < st.store.length
  · simp only [VMSt.setSlot, VMSt.getSlotAt]
    rw [store_getD_set_eq _ _ _ hr]
    exact slotsGet_set_other _ _ _ _ h
  · have hnoop : st.store.set ref (slotsSet (st.store.getD ref []) k2 v) = st.store :=
      List.set_eq_of_length_le (le_of_not_lt hr)
    simp only [VMSt.setSlot, VMSt.getSlotAt, hnoop]

/-- `SetSlot` preserves the store's extent. -/
theorem setSlot_length (st : VMSt) (ref : Nat) (k : String) (v : IVal) :
    (st.setSlot ref k v).store.length = st.store.length := by
  simp [VMSt.setSlot]

/-- Binding the parameters preserves the store's extent. -/
theorem bindArgNames_length (vm : VM) (st : VMSt) (ref : Nat) (names : List String)
    (msg : Msg) (i : ℤ) :
    (bindArgNames vm st ref names msg i).store.length = st.store.length := by
  induction names generalizing st i with
  | nil => rfl
  | cons a t ih =>
    simp only [bindArgNames]
    cases hx : msg.ArgAt i <;> simp only [hx] <;> rw [ih] <;> exact setSlot_length ..

/-- Binding the parameters does not disturb a slot that is not a
parameter name. -/
theorem bindArgNames_get_notMem (vm : VM) (st : VMSt) (ref : Nat) (names : List String)
    (msg : Msg) (i : ℤ) (k : String) (h : k ∉ names) :
    (bindArgNames vm st ref names msg i).getSlotAt ref k = st.getSlotAt ref k := by
  induction names generalizing st i with
  | nil => rfl
  | cons a t ih =>
    rw [List.mem_cons, not_or] at h
    simp only [bindArgNames]
    cases hx : msg.ArgAt i <;> simp only [hx] <;>
      rw [ih _ _ h.2, getSlotAt_setSlot_other _ _ _ _ _ h.1]

/-- The value a parameter holds after the binding loop: the raw argument
message at its index, or `vm.Nil` when that is nil or missing. -/
theorem bindArgNames_get (vm : VM) (st : VMSt) (ref : Nat) (names : List String) (msg : Msg)
    (i0 : ℤ) (k : Nat) (hk : k < names.length) (hnd : names.Nodup)
    (href : ref < st.store.length) :
    (bindArgNames vm st ref names msg i0).getSlotAt ref names[k] =
      some (match msg.ArgAt (i0 + k) with
        | some x => IVal.msgV x
        | none => vm.nilval) := by
  induction names generalizing st i0 k with
  | nil => simp at hk
  | cons a t ih =>
    rw [List.nodup_cons] at hnd
    cases k with
    | zero =>
      simp only [List.getElem_cons_zero, bindArgNames]
      have hzero : i0 + ((0 : ℕ) : ℤ) = i0 := by simp
      rw [hzero]
      cases hx : msg.ArgAt i0 <;> simp only [hx] <;>
        rw [bindArgNames_get_notMem vm _ ref t msg (i0 + 1) a hnd.1,
          getSlotAt_setSlot_same _ _ _ _ href]
    | succ n =>
      simp only [List.getElem_cons_succ, bindArgNames]
      have harith : i0 + ((n + 1 : ℕ) : ℤ) = (i0 + 1) + (n : ℤ) := by push_cast; ring
      rw [harith]
      have hk2 : n < t.length := by simpa using hk
      cases hx : msg.ArgAt i0 <;> simp only [hx] <;>
        exact ih _ (i0 + 1) n hk2 hnd.2 (by rw [setSlot_length]; exact href)

/-- The `self` slot of the fresh activation locals is the block's
captured self, falling back to the activation target. -/
theorem activationLocals_self (vm : VM) (st : VMSt) (b : Block) (target locals : IVal)
    (msg : Msg) :
    (activationLocalsStore vm st b target locals msg).1.getSlotAt
      (activationLocalsStore vm st b target locals msg).2 "self" =
      some (b.self.getD target) := by
  unfold activationLocalsStore VMSt.alloc
  rw [getSlotAt_setSlot_other _ _ _ _ _ (by decide : "self" ≠ "call")]
  exact getSlotAt_setSlot_same _ _ _ _ (by rw [bindArgNames_length]; simp)

/-- C1 as amended: `reallyActivate` binds, for each declared parameter
name in order, the corresponding *unevaluated* argument message of the
call-site message (the `*Message` value itself) in the fresh locals, and
the `Nil` sentinel when the argument is missing (or a nil entry); the
arguments are not evaluated at binding time.  Stated for parameter names
that are not shadowed by the later `self`/`call` installs. -/
theorem c1_amended (vm : VM) (st : VMSt) (b : Block) (target locals : IVal) (msg : Msg)
    (i : Nat) (hi : i < b.argNames.length) (hnd : b.argNames.Nodup)
    (hs : b.argNames[i] ≠ "self") (hc : b.argNames[i] ≠ "call") :
    (activationLocalsStore vm st b target locals msg).1.getSlotAt
      (activationLocalsStore vm st b target locals msg).2 (b.argNames[i]) =
      some (match msg.ArgAt (i : ℤ) with
        | some x => IVal.msgV x
        | none => vm.nilval) := by
  unfold activationLocalsStore VMSt.alloc
  rw [getSlotAt_setSlot_other _ _ _ _ _ hc, getSlotAt_setSlot_other _ _ _ _ _ hs]
  have h := bindArgNames_get vm ⟨st.store ++ [[]]⟩ st.store.length b.argNames msg 0 i hi hnd
    (by simp)
  simpa using h

/-- C1 counterexample: the claim says the argument expression is eagerly
evaluated in the caller's target/locals and the resulting *value* is
bound; but activating `c1Block` with call site `f(7)` binds the slot `a`
to the argument message object itself, while evaluating that argument in
the caller's locals yields the number 7 — and the two are different
values. -/
theorem c1_counterexample :
    (activationLocalsStore testVM testStore c1Block (.objV 0 []) (.objV 0 []) c1CallMsg).1.getSlotAt
      (activationLocalsStore testVM testStore c1Block (.objV 0 []) (.objV 0 []) c1CallMsg).2 "a"
      = some (.msgV c1ArgChain)
    ∧ (evalChain 10 testVM testStore (.objV 0 []) (.objV 0 []) c1ArgChain).2 = .numV (.fin 7)
    ∧ IVal.msgV c1ArgChain ≠ IVal.numV (.fin 7) := by
  refine ⟨rfl, rfl, fun h => IVal.noConfusion h⟩

/-- C1 witness: the amended statement at `c1Block` and call site `f(7)`:
parameter `a` is bound to the raw argument message. -/
theorem c1_amended_witness :
    (activationLocalsStore testVM testStore c1Block (.objV 0 []) (.objV 0 []) c1CallMsg).1.getSlotAt
      (activationLocalsStore testVM testStore c1Block (.objV 0 []) (.objV 0 []) c1CallMsg).2 "a"
      = some (.msgV c1ArgChain) := by
  have h := c1_amended testVM testStore c1Block (.objV 0 []) (.objV 0 []) c1CallMsg 0
    (by decide) (by decide) (by decide) (by decide)
  simpa using h

/-- C4: a block holding a captured self `S` binds the body's `self` slot
to `S` whatever the activation target is; a block installed by
`ObjectMethod` has its captured self cleared and binds `self` to the
object it is activated on. -/
theorem c4_closure_self :
    (∀ (vm : VM) (st : VMSt) (b : Block) (target locals : IVal) (msg : Msg) (S : IVal),
      b.self = some S →
      (activationLocalsStore vm st b target locals msg).1.getSlotAt
        (activationLocalsStore vm st b target locals msg).2 "self" = some S)
    ∧ (∀ (vm : VM) (st : VMSt) (cTarget cLocals : IVal) (cMsg : Msg)
        (target locals : IVal) (msg : Msg),
      (ObjectMethod vm cTarget cLocals cMsg).self = none
      ∧ (activationLocalsStore vm st (ObjectMethod vm cTarget cLocals cMsg)
          target locals msg).1.getSlotAt
        (activationLocalsStore vm st (ObjectMethod vm cTarget cLocals cMsg)
          target locals msg).2 "self" = some target) := by
  constructor
  · intro vm st b target locals msg S hS
    rw [activationLocals_self, hS]
    rfl
  · intro vm st cTarget cLocals cMsg target locals msg
    exact ⟨rfl, by rw [activationLocals_self]; rfl⟩

/-- C4 witness: the closure block binds `self` to `S` although the target
is `TGT`, and the method block binds `self` to the target. -/
theorem c4_closure_self_witness :
    (activationLocalsStore testVM testStore c4Block c4Target c4Caller c4CallMsg).1.getSlotAt
      (activationLocalsStore testVM testStore c4Block c4Target c4Caller c4CallMsg).2 "self"
      = some (.strV "S")
    ∧ ((ObjectMethod testVM c4Caller c4Caller c4MkMsg).self = none
      ∧ (activationLocalsStore testVM testStore (ObjectMethod testVM c4Caller c4Caller c4MkMsg)
          c4Target c4Caller c4CallMsg).1.getSlotAt
        (activationLocalsStore testVM testStore (ObjectMethod testVM c4Caller c4Caller c4MkMsg)
          c4Target c4Caller c4CallMsg).2 "self" = some c4Target) :=
  ⟨c4_closure_self.1 testVM testStore c4Block c4Target c4Caller c4CallMsg (.strV "S") rfl,
   c4_closure_self.2 testVM testStore c4Caller c4Caller c4MkMsg c4Target c4Caller c4CallMsg⟩

/-- C5: a `Stop` produced by a statement short-circuits the remaining
sibling statements of the chain (the chain's result does not depend on
them); a block activation whose body yields a `Stop` returns the signal's
payload (`stop.Result`), unwrapped exactly once — concretely the body
`ret(7); 99` activates to the number 7, skipping `99`; and the top-level
driver `DoMessage` performs the same single unwrap. -/
theorem c5_stop_unwinding :
    (∀ (fuel : Nat) (vm : VM) (st st2 : VMSt) (locals cur : IVal) (m : Msg)
      (rest : List Msg) (r : IVal),
      evalStep fuel vm st locals cur m = (st2, .stopV r) →
      evalChain (fuel + 1) vm st locals cur (m :: rest) = (st2, .stopV r))
    ∧ (Block.reallyActivate 100 testVM testStore c5Block (.objV 0 []) (.objV 0 []) c5CallMsg).2
      = .numV (.fin 7)
    ∧ (DoMessage 100 testVM testStore [c5RetNode] (.objV 0 [])).2 = .numV (.fin 7) := by
  refine ⟨?_, rfl, rfl⟩
  intro fuel vm st st2 locals cur m rest r h
  simp only [evalChain]
  rw [h]

/-- C5 witness: the short-circuit conjunct at the concrete body
`ret(7); 99` — the trailing statement is dropped and the signal
propagates. -/
theorem c5_stop_unwinding_witness :
    evalChain (50 + 1) testVM testStore (.objV 0 []) (.objV 0 []) [c5RetNode, testNumNode 99]
      = (testStore, .stopV (.numV (.fin 7))) :=
  c5_stop_unwinding.1 50 testVM testStore testStore (.objV 0 []) (.objV 0 []) c5RetNode
    [testNumNode 99] (.numV (.fin 7)) rfl

/-- C10: a block whose `Activatable` flag is false is inert under
`Activate` — the activation returns the block itself unchanged — yet
`BlockCall` (the built-in `call`) runs `reallyActivate` on it anyway;
concretely the inert block with body `7` is returned as-is by `Activate`
but yields the number 7 through `BlockCall`. -/
theorem c10_inert_but_callable :
    (∀ (fuel : Nat) (vm : VM) (st : VMSt) (b : Block) (target locals : IVal) (msg : Msg),
      b.activatable = false →
      Block.Activate (fuel + 1) vm st b target locals msg = (st, .ofBlock b))
    ∧ (∀ (fuel : Nat) (vm : VM) (st : VMSt) (b : Block) (locals : IVal) (msg : Msg),
      BlockCall (fuel + 1) vm st (.ofBlock b) locals msg
        = Block.reallyActivate fuel vm st b (.ofBlock b) locals msg)
    ∧ Block.Activate 100 testVM testStore c10Block (.objV 0 []) (.objV 0 []) c10CallMsg
      = (testStore, .ofBlock c10Block)
    ∧ (BlockCall 100 testVM testStore (.ofBlock c10Block) (.objV 0 []) c10CallMsg).2
      = .numV (.fin 7) := by
  refine ⟨?_, ?_, rfl, rfl⟩
  · intro fuel vm st b target locals msg h
    simp [Block.Activate, h]
  · intro fuel vm st b locals msg
    rfl

/-- C10 witness: both universal conjuncts at the concrete inert block. -/
theorem c10_inert_but_callable_witness :
    Block.Activate (99 + 1) testVM testStore c10Block (.objV 0 []) (.objV 0 []) c10CallMsg
      = (testStore, .ofBlock c10Block)
    ∧ BlockCall (99 + 1) testVM testStore (.ofBlock c10Block) (.objV 0 []) c10CallMsg
      = Block.reallyActivate 99 testVM testStore c10Block (.ofBlock c10Block) (.objV 0 [])
          c10CallMsg :=
  ⟨c10_inert_but_callable.1 99 testVM testStore c10Block (.objV 0 []) (.objV 0 []) c10CallMsg rfl,
   c10_inert_but_callable.2.1 99 testVM testStore c10Block (.objV 0 []) c10CallMsg⟩

/-- The invariant distributes over chain concatenation. -/
theorem chainRefsOK_append (vm : VM) (a b : List Msg) :
    chainRefsOK vm (a ++ b) = (chainRefsOK vm a && chainRefsOK vm b) := by
  induction a with
  | nil => simp [chainRefsOK]
  | cons m t ih => simp [chainRefsOK, ih, Bool.and_assoc]

/-- The invariant distributes over argument-list concatenation. -/
theorem argsRefsOK_append (vm : VM) (a b : List (Option (List Msg))) :
    argsRefsOK vm (a ++ b) = (argsRefsOK vm a && argsRefsOK vm b) := by
  induction a with
  | nil => simp [argsRefsOK]
  | cons m t ih => simp [argsRefsOK, ih, Bool.and_assoc]

/-- Dropping the last node preserves the invariant. -/
theorem chainRefsOK_dropLast (vm : VM) (l : List Msg) (h : chainRefsOK vm l = true) :
    chainRefsOK vm l.dropLast = true := by
  induction l with
  | nil => rfl
  | cons m t ih =>
    cases t with
    | nil => rfl
    | cons m2 t2 =>
      rw [chainRefsOK, Bool.and_eq_true] at h
      simpa [List.dropLast, chainRefsOK, h.1] using ih h.2

/-- The last node of an invariant chain satisfies the node invariant. -/
theorem chainRefsOK_getLast (vm : VM) (l : List Msg) (m : Msg) (h : chainRefsOK vm l = true)
    (hm : l.getLast? = some m) : msgRefsOK vm m = true := by
  induction l with
  | nil => simp at hm
  | cons a t ih =>
    rw [chainRefsOK, Bool.and_eq_true] at h
    cases t with
    | nil =>
      simp only [List.getLast?_singleton, Option.some.injEq] at hm
      rw [← hm]
      exact h.1
    | cons b t2 =>
      rw [List.getLast?_cons_cons] at hm
      exact ih h.2 hm

/-- A freshly allocated parser node satisfies the node invariant. -/
theorem mkMsgNode_ok (vm : VM) (sym : IoSymbol) (memo : Option PVal) :
    msgRefsOK vm (mkMsgNode vm sym memo) = true := by
  simp [mkMsgNode, msgRefsOK, argsRefsOK]

/-- Appending one good node preserves the chain invariant. -/
theorem chainRefsOK_append_node (vm : VM) (acc : List Msg) (nd : Msg)
    (h : chainRefsOK vm acc = true) (hn : msgRefsOK vm nd = true) :
    chainRefsOK vm (acc ++ [nd]) = true := by
  rw [chainRefsOK_append]
  simp [chainRefsOK, h, hn]

/-- A pruned chain satisfies the optional-chain invariant. -/
theorem pruneChain_ok (vm : VM) (acc : List Msg) (h : chainRefsOK vm acc = true) :
    optChainRefsOK vm (pruneChain acc) = true := by
  unfold pruneChain
  split <;> simp [optChainRefsOK, h]

/-- The open-bracket case of `parseRecurse` preserves the shared-reference
invariant, given the induction hypotheses for smaller fuel and a good
attachee node. -/
theorem parse_open_ok (vm : VM) (n : Nat)
    (ihL : ∀ (openCh : Option Char) (acc : List Msg) (toks : List Token),
      chainRefsOK vm acc = true → presRefsOK vm (parseLoop vm n openCh acc toks) = true)
    (ihA : ∀ (openC : Char) (args : List (Option (List Msg))) (toks : List Token),
      argsRefsOK vm args = true → aresRefsOK vm (parseArgsLoop vm n openC args toks) = true)
    (openCh : Option Char) (accInit : List Msg) (node : Msg) (openC : Char)
    (rest : List Token)
    (hacc : chainRefsOK vm accInit = true) (hnode : msgRefsOK vm node = true) :
    presRefsOK vm (
      match parseArgsLoop vm n openC node.args rest with
      | .apanic => .panicked
      | .aret args amsg atok errA rest2 =>
        match errA with
        | some e =>
          if accInit.isEmpty then .panicked
          else .ret atok (some accInit) (some e) rest2
        | none =>
          let patched := if args.length == 1 && nilEntry args.head? then [] else args
          let err2 : Option PErr :=
            if decide (1 < args.length) && nilEntry args.getLast? then some .emptyArgument
            else none
          match err2 with
          | some e =>
            if accInit.isEmpty then .panicked
            else .ret atok (some accInit) (some e) rest2
          | none =>
            parseLoop vm n openCh
              (accInit ++ [Msg.mk node.slotsRef node.sym (patched ++ [amsg]) node.memo])
              rest2) = true := by
  have hnargs : argsRefsOK vm node.args = true := by
    cases node with
    | mk r s a m =>
      rw [msgRefsOK, Bool.and_eq_true] at hnode
      exact hnode.2
  have hares := ihA openC node.args rest hnargs
  split
  next heq => rfl
  next args amsg atok errA rest2 heq =>
    rw [heq, aresRefsOK, Bool.and_eq_true] at hares
    have hpanic : presRefsOK vm (if accInit.isEmpty then PRes.panicked
        else PRes.ret atok (some accInit) (some PErr.emptyArgument) rest2) = true := by
      split
      · rfl
      · simpa [presRefsOK, optChainRefsOK] using hacc
    have hcont : ∀ (patched : List (Option (List Msg))), argsRefsOK vm patched = true →
        presRefsOK vm (parseLoop vm n openCh
          (accInit ++ [Msg.mk node.slotsRef node.sym (patched ++ [amsg]) node.memo])
          rest2) = true := by
      intro patched hp
      apply ihL
      apply chainRefsOK_append_node vm accInit _ hacc
      cases node with
      | mk r s a m =>
        rw [msgRefsOK, Bool.and_eq_true] at hnode
        rw [msgRefsOK, Bool.and_eq_true]
        refine ⟨hnode.1, ?_⟩
        rw [argsRefsOK_append]
        simp [hp, argsRefsOK, hares.2]
    split
    · split
      · rfl
      · simpa [presRefsOK, optChainRefsOK] using hacc
    · by_cases hp : (args.length == 1 && nilEntry args.head?) = true
      · by_cases he : (decide (1 < args.length) && nilEntry args.getLast?) = true
        · simp only [if_pos hp, if_pos he]
          exact hpanic
        · simp only [if_pos hp, if_neg he]
          exact hcont [] rfl
      · by_cases he : (decide (1 < args.length) && nilEntry args.getLast?) = true
        · simp only [if_neg hp, if_pos he]
          exact hpanic
        · simp only [if_neg hp, if_neg he]
          exact hcont args hares.1

/-- Every chain `parseRecurse` returns (and every argument list the
argument loop accumulates) consists of nodes whose `Slots` reference is
the shared `vm.DefaultSlots["Message"]` map, provided the nodes fed in
already satisfy that — the parser only ever builds nodes via the
`&Message{Object: Object{Slots: vm.DefaultSlots["Message"], ...}}`
literal. -/
theorem parse_refs (vm : VM) : ∀ fuel : Nat,
    (∀ (openCh : Option Char) (acc : List Msg) (toks : List Token),
      chainRefsOK vm acc = true → presRefsOK vm (parseLoop vm fuel openCh acc toks) = true)
    ∧ (∀ (openC : Char) (args : List (Option (List Msg))) (toks : List Token),
      argsRefsOK vm args = true → aresRefsOK vm (parseArgsLoop vm fuel openC args toks) = true) := by
  intro fuel
  induction fuel with
  | zero =>
    refine ⟨fun openCh acc toks hacc => ?_, fun openC args toks hargs => ?_⟩
    · simp [parseLoop, presRefsOK, optChainRefsOK]
    · simp [parseArgsLoop, aresRefsOK, optChainRefsOK, hargs]
  | succ n ih =>
    obtain ⟨ihL, ihA⟩ := ih
    refine ⟨fun openCh acc toks hacc => ?_, fun openC args toks hargs => ?_⟩
    · cases toks with
      | nil => simpa [parseLoop, presRefsOK] using pruneChain_ok vm acc hacc
      | cons tok rest =>
        simp only [parseLoop]
        split
        · -- badToken
          exact pruneChain_ok vm acc hacc
        · -- semiToken
          split
          · exact ihL _ _ _ hacc
          · exact ihL _ _ _ (chainRefsOK_append_node vm acc _ hacc (mkMsgNode_ok vm _ _))
        · -- identToken
          exact ihL _ _ _ (chainRefsOK_append_node vm acc _ hacc (mkMsgNode_ok vm _ _))
        · -- openToken: the goal is the instance of `parse_open_ok` at the
          -- selected attachee; discharge the selection side conditions by
          -- case analysis on the selection
          apply parse_open_ok vm n ihL ihA openCh
          · -- the completed prefix satisfies the invariant
            split
            · split
              · exact hacc
              · split
                next lastN heq => exact chainRefsOK_dropLast vm acc hacc
                next heq => exact hacc
            · exact hacc
            · exact hacc
            · exact hacc
          · -- the attachee node satisfies the invariant
            split
            · split
              · exact mkMsgNode_ok vm _ _
              · split
                next lastN heq => exact chainRefsOK_getLast vm acc lastN hacc heq
                next heq => exact mkMsgNode_ok vm _ _
            · exact mkMsgNode_ok vm _ _
            · exact mkMsgNode_ok vm _ _
            · exact mkMsgNode_ok vm _ _
        · -- closeToken
          exact pruneChain_ok vm acc hacc
        · -- commaToken
          exact pruneChain_ok vm acc hacc
        · -- numberToken
          split
          · exact ihL _ _ _ (chainRefsOK_append_node vm acc _ hacc (mkMsgNode_ok vm _ _))
          · exact ihL _ _ _ (chainRefsOK_append_node vm acc _ hacc (mkMsgNode_ok vm _ _))
          · exact pruneChain_ok vm acc hacc
        · -- hexToken
          split
          · exact ihL _ _ _ (chainRefsOK_append_node vm acc _ hacc (mkMsgNode_ok vm _ _))
          · exact ihL _ _ _ (chainRefsOK_append_node vm acc _ hacc (mkMsgNode_ok vm _ _))
          · exact pruneChain_ok vm acc hacc
        · -- stringToken
          split
          · exact ihL _ _ _ (chainRefsOK_append_node vm acc _ hacc (mkMsgNode_ok vm _ _))
          · exact pruneChain_ok vm acc hacc
        · -- triquoteToken
          exact ihL _ _ _ (chainRefsOK_append_node vm acc _ hacc (mkMsgNode_ok vm _ _))
    · simp only [parseArgsLoop]
      split
      · rfl
      next atok amsg err rest2 heq =>
        have hres := ihL (some openC) [] toks rfl
        rw [heq] at hres
        have hres2 : optChainRefsOK vm amsg = true := hres
        split
        · split
          · simp [aresRefsOK, hargs, hres2]
          · apply ihA
            rw [argsRefsOK_append]
            simp [hargs, argsRefsOK, hres2]
        · simp [aresRefsOK, hargs, hres2]

/-- C9: every Block built by `ObjectBlock`/`ObjectMethod` carries
`vm.DefaultSlots["Block"]` itself (the same map reference, not a copy) as
its `Slots`, every Message node the parser creates carries
`vm.DefaultSlots["Message"]`, and consequently a slot written through one
such object's reference is read back through any other's. -/
theorem c9_shared_default_slots :
    (∀ (vm : VM) (t1 l1 t2 l2 : IVal) (m1 m2 : Msg),
      (ObjectBlock vm t1 l1 m1).slotsRef = vm.DefaultSlots "Block"
      ∧ (ObjectMethod vm t2 l2 m2).slotsRef = vm.DefaultSlots "Block")
    ∧ (∀ (vm : VM) (fuel : Nat) (openCh : Option Char) (toks : List Token),
      presRefsOK vm (parseLoop vm fuel openCh [] toks) = true)
    ∧ (∀ (vm : VM) (st : VMSt) (t1 l1 t2 l2 : IVal) (m1 m2 : Msg) (name : String) (v : IVal),
      (ObjectBlock vm t1 l1 m1).slotsRef < st.store.length →
      (st.setSlot (ObjectBlock vm t1 l1 m1).slotsRef name v).getSlotAt
        (ObjectBlock vm t2 l2 m2).slotsRef name = some v) := by
  refine ⟨fun vm t1 l1 t2 l2 m1 m2 => ⟨rfl, rfl⟩, ?_, ?_⟩
  · intro vm fuel openCh toks
    exact (parse_refs vm fuel).1 openCh [] toks rfl
  · intro vm st t1 l1 t2 l2 m1 m2 name v h
    exact getSlotAt_setSlot_same st _ name v h

/-- C9 witness: the conjuncts at a concrete VM, store, creation messages
and token stream — in particular a slot written through one block's map
reference is visible through another block's. -/
theorem c9_shared_default_slots_witness :
    ((ObjectBlock testVM c4Caller c4Caller c9MkMsg).slotsRef = testVM.DefaultSlots "Block"
      ∧ (ObjectMethod testVM c4Caller c4Caller c9MkMsg).slotsRef = testVM.DefaultSlots "Block")
    ∧ presRefsOK testVM (parseLoop testVM 20 none [] c9Toks) = true
    ∧ (testStore.setSlot (ObjectBlock testVM c4Caller c4Caller c9MkMsg).slotsRef "zz"
        (.numV (.fin 1))).getSlotAt
        (ObjectBlock testVM c4Caller c4Caller c9MkMsg).slotsRef "zz" = some (.numV (.fin 1)) :=
  ⟨c9_shared_default_slots.1 testVM c4Caller c4Caller c4Caller c4Caller c9MkMsg c9MkMsg,
   c9_shared_default_slots.2.1 testVM 20 none c9Toks,
   c9_shared_default_slots.2.2 testVM testStore c4Caller c4Caller c4Caller c4Caller
     c9MkMsg c9MkMsg "zz" (.numV (.fin 1)) (by decide)⟩
